import Mathlib

/-!
Shallow embedding of `src/dapps/meta-tracer/api/app.py` (metadata dApp:
FastAPI handlers over a web3 contract plus a local object store).

Pure Python helpers become Lean functions.  The HTTP handlers become
functions from their explicit inputs (request body, the contract
view-call result, a storage-success flag) to the object-store writes
performed, the ledger transactions submitted, and the HTTP response.
Bytes are `List Nat` (each value < 256); strings are `String`.
External cryptographic primitives (`hashlib.sha256`, `Web3.keccak`) are
abstract function parameters of the configuration, since they are
library calls outside the repository.
-/

namespace MetaTracer

/-- Value of a hex digit character, `none` for non-hex characters.
Mirrors the character classes accepted by `binascii.unhexlify`:
ASCII 48-57 are '0'-'9', 97-102 are 'a'-'f', 65-70 are 'A'-'F'. -/
def hexVal? (c : Char) : Option Nat :=
  if 48 ≤ c.toNat ∧ c.toNat ≤ 57 then some (c.toNat - 48)
  else if 97 ≤ c.toNat ∧ c.toNat ≤ 102 then some (c.toNat - 97 + 10)
  else if 65 ≤ c.toNat ∧ c.toNat ≤ 70 then some (c.toNat - 65 + 10)
  else none

/-- The byte decoding of a hex string, as performed by
`binascii.unhexlify`: two hex digits per byte, failure on odd length or
any non-hex character. -/
def unhex : List Char → Option (List Nat)
  | [] => some []
  | [_] => none
  | c1 :: c2 :: rest =>
    (hexVal? c1).bind fun h =>
    (hexVal? c2).bind fun l =>
    (unhex rest).map fun t => (16 * h + l) :: t

/-- Lowercase hex encoding of a byte list (`bytes.hex()` /
`hexdigest()`): two lowercase hex digits per byte. -/
def hexEncodeList : List Nat → List Char
  | [] => []
  | b :: t => Nat.digitChar (b / 16) :: Nat.digitChar (b % 16) :: hexEncodeList t

/-- String form of the lowercase hex encoding. -/
def hexEncode (l : List Nat) : String := ⟨hexEncodeList l⟩

/-- Strip a leading literal "0x" if present (`s[2:] if s.startswith("0x")
else s`; Python slicing is character based). -/
def strip0x (s : String) : String :=
  match s.data with
  | '0' :: 'x' :: rest => ⟨rest⟩
  | _ => s

/-- The helper `_b32` of app.py: strip an optional "0x" prefix, decode
hex (`binascii.unhexlify`), and require exactly 32 bytes; `none` models
the raised exception. -/
def b32 (hexstr : String) : Option (List Nat) :=
  (unhex (strip0x hexstr).data).bind fun raw =>
    if raw.length = 32 then some raw else none

/-- UTF-8 encoding of one code point. -/
def utf8Bytes (c : Char) : List Nat :=
  let n := c.toNat
  if n < 0x80 then [n]
  else if n < 0x800 then [0xC0 + n / 64, 0x80 + n % 64]
  else if n < 0x10000 then [0xE0 + n / 4096, 0x80 + n / 64 % 64, 0x80 + n % 64]
  else [0xF0 + n / 262144, 0x80 + n / 4096 % 64, 0x80 + n / 64 % 64, 0x80 + n % 64]

/-- UTF-8 bytes of a string (Python `str.encode()`). -/
def strBytes (s : String) : List Nat := s.data.flatMap utf8Bytes

/-- `Web3.to_hex` of a byte value: "0x" followed by lowercase hex. -/
def toHex0x (l : List Nat) : String := "0x" ++ hexEncode l

/-- `Web3.to_bytes(hexstr="0x" ++ chHex)` as used in app.py: the handler
prepends "0x" and `to_bytes` strips it again, so the composition decodes
`chHex` itself.  The argument is always valid hex there; `getD []`
models the impossible-failure branch. -/
def toBytesOfHex (chHex : String) : List Nat := (unhex chHex.data).getD []

/-- The sixty-four-character zero string `"0" * 64` used as the unknown
content-hash sentinel. -/
def zeros64 : String := ⟨List.replicate 64 '0'⟩

/-- The zero address literal compared against the returned owner field. -/
def zeroAddress : String := "0x0000000000000000000000000000000000000000"

/-! Decimal printing.  The handlers build file names with Python
f-strings (`f"v\x7bver\x7d.json"`), whose decimal formatting of a
nonnegative integer coincides with `Nat.repr`.  We prove `Nat.repr`
injective so that distinct version numbers give distinct file names. -/
/-- Decimal digit characters of `n`, most significant first: the
structurally recursive counterpart of the fuelled `Nat.toDigitsCore`. -/
def decDigits (n : Nat) : List Char :=
  if _ : n < 10 then [Nat.digitChar n]
  else decDigits (n / 10) ++ [Nat.digitChar (n % 10)]
decreasing_by exact Nat.div_lt_self (by omega) (by omega)

/-- The object-store file name for a version: `f"v\x7bver\x7d.json"`
(for `create` the literal is `"v1.json"`, which is the same string at
version 1). -/
def fileNameV (ver : Nat) : String := "v" ++ Nat.repr ver ++ ".json"

/-! Association lists.  Python dicts preserve insertion order: updating
an existing key keeps its position, a new key is appended at the end.
Used for the in-memory listing projection and the modelled contract
storage. -/
/-- Insert-or-update for an insertion-ordered association list
(Python `d[k] = v`). -/
def aset {κ ν : Type} [DecidableEq κ] (k : κ) (v : ν) : List (κ × ν) → List (κ × ν)
  | [] => [(k, v)]
  | (k', v') :: t => if k' = k then (k, v) :: t else (k', v') :: aset k v t

/-- Lookup in an association list (Python `d.get(k)` / `k in d`). -/
def alookup {κ ν : Type} [DecidableEq κ] (k : κ) : List (κ × ν) → Option ν
  | [] => none
  | (k', v') :: t => if k' = k then some v' else alookup k t

/-! The data model of app.py. -/
/-- Process configuration and the external cryptographic primitives.
`sha256` stands for `hashlib.sha256(data).digest()` and `keccak` for
`Web3.keccak(seed)`; both are external library calls, taken as abstract
byte functions. -/
structure Cfg where
  sha256 : List Nat → List Nat
  keccak : List Nat → List Nat
  /-- The `PUBLIC_BASE_URL` environment value (may be empty; the two
  f-string branches of app.py produce the same string either way). -/
  publicBaseUrl : String
  /-- The value of `str(time.time())` at the moment a create request is
  handled, used as the fallback id-derivation seed. -/
  nowStr : String

/-- Python truthiness of an optional string field: `None` and the empty
string are falsy. -/
def truthy : Option String → Bool
  | none => false
  | some s => s != ""

/-- Body of `POST /api/metadata` (the `CreateReq` pydantic model). -/
structure CreateReq where
  recordIdHex : Option String
  json_text : Option String
  uri : Option String
deriving DecidableEq

/-- Body of `PUT /api/metadata/\x7brecordIdHex\x7d` (the `UpdateReq`
pydantic model). -/
structure UpdateReq where
  json_text : Option String
  uri : Option String
deriving DecidableEq

/-- The tuple returned by the contract view call
`CT.functions.get(rid).call()`: contentHash, uri, version, owner,
createdAt, updatedAt, updatedBy.  A record that was never created has
the zero address as owner. -/
structure ChainRecord where
  contentHash : List Nat
  uri : String
  version : Nat
  owner : String
  createdAt : Nat
  updatedAt : Nat
  updatedBy : String
deriving DecidableEq

/-- An HTTP-level failure: either an explicit `HTTPException(status,
msg)` or an uncaught Python exception, which FastAPI surfaces as < /
status 500. -/
inductive HErr where
  | http (status : Nat) (msg : String)
  | exn (msg : String)
deriving DecidableEq

/-- The HTTP status a failure is surfaced with. -/
def HErr.status : HErr → Nat
  | .http s _ => s
  | .exn _ => 500

/-- A transaction handed to the contract: `CT.functions.create(...)` or
`CT.functions.update(...)` built, signed and submitted. -/
structure Submission where
  isCreate : Bool
  recordId : List Nat
  contentHash : List Nat
  uri : String
deriving DecidableEq

/-- An object-store write: `OBJECTS_DIR / dir / file` receives
`content` (`target.write_text`).  `dir` and `file` are the two path
components below `OBJECTS_DIR`; `dir` is always sixty-four hex
characters, so the pair determines the file system path. -/
structure WriteOp where
  dir : String
  file : String
  content : String
deriving DecidableEq

/-- The path of a write, as the pair of path components. -/
def WriteOp.path (w : WriteOp) : String × String := (w.dir, w.file)

/-- Response of `GET /api/metadata/\x7brecordIdHex\x7d`. -/
structure ReadResp where
  recordId : String
  contentHash : String
  uri : String
  version : Nat
  owner : String
  createdAt : Nat
  updatedAt : Nat
  updatedBy : String
deriving DecidableEq

/-- Response of `POST /api/metadata`; the transaction hash of the
receipt comes from the external node and is omitted. -/
structure CreateResp where
  recordId : String
  uri : String
deriving DecidableEq

/-- Response of `PUT /api/metadata/\x7brecordIdHex\x7d`; transaction
hash omitted as above. -/
structure UpdateResp where
  recordId : String
  newUri : String
deriving DecidableEq

deriving instance DecidableEq for Except

/-- Everything a `create` call does: the object-store writes it
performs, the ledger transactions it submits, and its HTTP response. -/
structure CreateOut where
  writes : List WriteOp
  submitted : List Submission
  resp : Except HErr CreateResp
deriving DecidableEq

/-- Everything an `update` call does. -/
structure UpdateOut where
  writes : List WriteOp
  submitted : List Submission
  resp : Except HErr UpdateResp
deriving DecidableEq

/-- ASCII lowercasing, the effect of `str.lower()` on the ASCII
record-id strings handled here. -/
def lowerChar (c : Char) : Char :=
  if 65 ≤ c.toNat ∧ c.toNat ≤ 90 then Char.ofNat (c.toNat + 32) else c

/-- String lowercasing (`recordIdHex.lower()`). -/
def lowerStr (s : String) : String := ⟨s.data.map lowerChar⟩

/-! The three request handlers. -/
/-- Handler `GET /api/metadata/\x7brecordIdHex\x7d` (`get_one` in
app.py).  `get` is the external contract view call; the handler treats
a zero-address owner as not found and otherwise returns the tuple
fields. -/
def get_one (get : List Nat → ChainRecord) (recordIdHex : String) :
    Except HErr ReadResp :=
  match b32 recordIdHex with
  | none => .error (.http 400 "invalid recordId")
  | some rid =>
    let it := get rid
    if it.owner = zeroAddress then .error (.http 404 "not found")
    else .ok {
      recordId := lowerStr recordIdHex
      contentHash := toHex0x it.contentHash
      uri := it.uri
      version := it.version
      owner := it.owner
      createdAt := it.createdAt
      updatedAt := it.updatedAt
      updatedBy := it.updatedBy }

/-- Record-id resolution step of `create`: the explicit hex id when the
field is truthy (400 on a parse failure), otherwise
`Web3.keccak((req.json_text or str(time.time())).encode())`. -/
def resolveRid (cfg : Cfg) (req : CreateReq) : Except HErr (List Nat) :=
  if truthy req.recordIdHex then
    match b32 (req.recordIdHex.getD "") with
    | none => .error (.http 400 "invalid recordId")
    | some rid => .ok rid
  else
    .ok (cfg.keccak (strBytes
      (if truthy req.json_text then req.json_text.getD "" else cfg.nowStr)))

/-- Handler `POST /api/metadata` (`create` in app.py).  `storageOk`
says whether the object-store filesystem write would succeed; when it
is false the raised I/O error aborts the handler before the transaction
is built.  `hexEncode rid` is `Web3.to_hex(rid)[2:]`. -/
def create (cfg : Cfg) (storageOk : Bool) (req : CreateReq) : CreateOut :=
  match resolveRid cfg req with
  | .error e => ⟨[], [], .error e⟩
  | .ok rid =>
    if truthy req.json_text then
      let jt := req.json_text.getD ""
      let chHex := hexEncode (cfg.sha256 (strBytes jt))
      let ridHex := hexEncode rid
      if storageOk then
        let uri := cfg.publicBaseUrl ++ "/objects/" ++ ridHex ++ "/" ++ fileNameV 1
        { writes := [⟨ridHex, fileNameV 1, jt⟩]
          submitted := [⟨true, rid, toBytesOfHex chHex, uri⟩]
          resp := .ok ⟨toHex0x rid, uri⟩ }
      else ⟨[], [], .error (.exn "object store write failed")⟩
    else if truthy req.uri then
      let uri := req.uri.getD ""
      { writes := []
        submitted := [⟨true, rid, toBytesOfHex zeros64, uri⟩]
        resp := .ok ⟨toHex0x rid, uri⟩ }
    else ⟨[], [], .error (.http 400 "json_text 또는 uri 중 하나는 필요")⟩

/-- Handler `PUT /api/metadata/\x7brecordIdHex\x7d` (`update` in
app.py).  The object-store directory is the caller-supplied hex string
with an optional "0x" stripped, not re-normalised. -/
def update (cfg : Cfg) (get : List Nat → ChainRecord) (storageOk : Bool)
    (recordIdHex : String) (req : UpdateReq) : UpdateOut :=
  match b32 recordIdHex with
  | none => ⟨[], [], .error (.http 400 "invalid recordId")⟩
  | some rid =>
    let it := get rid
    if it.owner = zeroAddress then ⟨[], [], .error (.http 404 "not found")⟩
    else
      let current_ver := it.version
      if truthy req.json_text then
        let jt := req.json_text.getD ""
        let chHex := hexEncode (cfg.sha256 (strBytes jt))
        let ridHex := strip0x recordIdHex
        if storageOk then
          let uri := cfg.publicBaseUrl ++ "/objects/" ++ ridHex ++ "/" ++
            fileNameV (current_ver + 1)
          { writes := [⟨ridHex, fileNameV (current_ver + 1), jt⟩]
            submitted := [⟨false, rid, toBytesOfHex chHex, uri⟩]
            resp := .ok ⟨recordIdHex, uri⟩ }
        else ⟨[], [], .error (.exn "object store write failed")⟩
      else if truthy req.uri then
        let uri := req.uri.getD ""
        { writes := []
          submitted := [⟨false, rid, toBytesOfHex zeros64, uri⟩]
          resp := .ok ⟨recordIdHex, uri⟩ }
      else ⟨[], [], .error (.http 400 "json_text 또는 uri 중 하나는 필요")⟩

/-! The on-chain contract.  app.py reads `contracts/MetadataRegistry.sol`,
which is not among the repository sources, so the contract's behaviour
is modelled from the spec; everything handler-side comes from app.py. -/
/-- Contract storage: record id to stored record. -/
def Chain := List (List Nat × ChainRecord)

/-- Modelled from the spec: the view `get(bytes32 id)` of the external
`MetadataRegistry` contract (the Solidity source is not under src/).
It returns the stored tuple, and for a never-created id the owner field
is the zero address ("A record with `owner` equal to the zero/absent
address is considered nonexistent"). -/
def chainGet (c : Chain) (rid : List Nat) : ChainRecord :=
  (alookup rid c).getD ⟨List.replicate 32 0, "", 0, zeroAddress, 0, 0, zeroAddress⟩

/-- Modelled from the spec: the contract entry points
`create(id, contentHash, uri)` and `update(id, contentHash, uri)` (the
Solidity source is not under src/).  `create` reverts on a duplicate id
("`LedgerRejected` if the contract reverts (e.g., duplicate id)") and
otherwise stores the record with `version = 1` and the sender as owner;
`update` reverts on a nonexistent id and otherwise "increments
`version` atomically"; timestamps are assigned by the ledger (`ts`).
Returns the new storage and whether the transaction reverted. -/
def applySub (account : String) (ts : Nat) (c : Chain) (s : Submission) :
    Chain × Bool :=
  if s.isCreate then
    if (chainGet c s.recordId).owner ≠ zeroAddress then (c, true)
    else (aset s.recordId ⟨s.contentHash, s.uri, 1, account, ts, ts, account⟩ c, false)
  else
    let old := chainGet c s.recordId
    if old.owner = zeroAddress then (c, true)
    else (aset s.recordId ⟨s.contentHash, s.uri, old.version + 1, old.owner,
      old.createdAt, ts, account⟩ c, false)

/-- Process a handler's submissions in order, reporting whether any
reverted. -/
def submitAll (account : String) (c : Chain) : List Submission → Chain × Bool
  | [] => (c, false)
  | s :: rest =>
    let r := applySub account 0 c s
    let r2 := submitAll account r.1 rest
    (r2.1, r.2 || r2.2)

/-- A service-layer write operation: one HTTP request. -/
inductive Op where
  | create (req : CreateReq)
  | update (recordIdHex : String) (req : UpdateReq)

/-- Result of running operations: final contract storage, the
object-store writes performed, and whether any submission reverted. -/
structure RunOut where
  chain : Chain
  writes : List WriteOp
  reverted : Bool

/-- One request against chain state `c`: the handler runs with the
filesystem available and its submission, if any, is processed by the
modelled contract. -/
def runOp (cfg : Cfg) (account : String) (c : Chain) : Op → RunOut
  | .create req =>
    let o := create cfg true req
    let r := submitAll account c o.submitted
    ⟨r.1, o.writes, r.2⟩
  | .update ridHex req =>
    let o := update cfg (chainGet c) true ridHex req
    let r := submitAll account c o.submitted
    ⟨r.1, o.writes, r.2⟩

/-- Run a sequence of service-layer operations. -/
def run (cfg : Cfg) (account : String) : Chain → List Op → RunOut
  | c, [] => ⟨c, [], false⟩
  | c, op :: ops =>
    let r := runOp cfg account c op
    let rest := run cfg account r.chain ops
    ⟨rest.chain, r.writes ++ rest.writes, r.reverted || rest.reverted⟩

/-! The write-set invariant for sequences of service operations. -/
/-- Invariant tying the performed object-store writes to the chain
state: write paths are pairwise distinct, and every written path
belongs to a record that exists on chain, with a version tag between 1
and the record's current version. -/
def WInv (c : Chain) (ws : List WriteOp) : Prop :=
  (ws.map WriteOp.path).Nodup ∧
  ∀ w ∈ ws, ∃ rid ver,
    unhex w.dir.data = some rid ∧
    w.file = fileNameV ver ∧ 1 ≤ ver ∧
    (chainGet c rid).owner ≠ zeroAddress ∧
    ver ≤ (chainGet c rid).version

/-! Listing (`GET /api/metadata`, `list_metadata` in app.py): replay of
the contract's event logs into a Python dict keyed by the hex record
id, then the dict's values sorted by `updatedAt` descending. -/
/-- A `MetadataCreated` event entry as returned by the full-history log
query, in log order. -/
structure CreatedEv where
  recordId : List Nat
  contentHash : List Nat
  uri : String
  version : Nat
  owner : String
  timestamp : Nat
deriving DecidableEq

/-- A `MetadataUpdated` event entry. -/
structure UpdatedEv where
  recordId : List Nat
  contentHash : List Nat
  uri : String
  version : Nat
  updatedBy : String
  timestamp : Nat
deriving DecidableEq

/-- One value of the `items` dict.  An item whose record only has
update events has no `owner` and no `createdAt` key. -/
structure Item where
  recordId : String
  contentHash : String
  uri : String
  version : Nat
  owner : Option String
  updatedBy : String
  updatedAt : Nat
  createdAt : Option Nat
deriving DecidableEq

/-- Dict entry built from a creation event (`a["recordId"].hex()` keys
the dict; `updatedBy` and both timestamps come from the creation). -/
def itemOfCreated (e : CreatedEv) : Item :=
  ⟨hexEncode e.recordId, hexEncode e.contentHash, e.uri, e.version,
    some e.owner, e.owner, e.timestamp, some e.timestamp⟩

/-- Dict entry after an update event: `items[rid]` is defaulted to an
empty dict when the key is absent, then `.update(...)` overwrites every
field except `owner` and `createdAt`, which keep their previous value
or stay absent. -/
def mergeUpdated (old : Option Item) (e : UpdatedEv) : Item :=
  ⟨hexEncode e.recordId, hexEncode e.contentHash, e.uri, e.version,
    old.bind Item.owner, e.updatedBy, e.timestamp, old.bind Item.createdAt⟩

/-- The `items` dict after replaying all creation events, then all
update events, in log order. -/
def buildItems (cs : List CreatedEv) (us : List UpdatedEv) : List (String × Item) :=
  us.foldl
    (fun d e => aset (hexEncode e.recordId)
      (mergeUpdated (alookup (hexEncode e.recordId) d) e) d)
    (cs.foldl (fun d e => aset (hexEncode e.recordId) (itemOfCreated e) d) [])

/-- Handler `GET /api/metadata`: the dict's values sorted descending by
`updatedAt` (Python's stable `sorted` with `reverse=True`; every stored
item carries the `updatedAt` key, so the `.get(..., 0)` default never
fires). -/
def list_metadata (cs : List CreatedEv) (us : List UpdatedEv) : List Item :=
  ((buildItems cs us).map Prod.snd).mergeSort fun a b => decide (b.updatedAt ≤ a.updatedAt)

/-- The last update event of the log carrying a given dict key. -/
def lastUpdateFor (us : List UpdatedEv) (k : String) : Option UpdatedEv :=
  us.reverse.find? fun e => hexEncode e.recordId == k

/-- The last creation event of the log carrying a given dict key (the
contract emits at most one creation per id, so this is the record's
creation event). -/
def lastCreateFor (cs : List CreatedEv) (k : String) : Option CreatedEv :=
  cs.reverse.find? fun e => hexEncode e.recordId == k

/-- What the listing should show for a key: the last update event
merged over the creation entry, or the creation entry alone if the
record was never updated. -/
def specItem (cs : List CreatedEv) (us : List UpdatedEv) (k : String) : Option Item :=
  match lastUpdateFor us k with
  | some u => some (mergeUpdated ((lastCreateFor cs k).map itemOfCreated) u)
  | none => (lastCreateFor cs k).map itemOfCreated

/-! Dict lemmas for the listing projection. -/
/-- The keys of an association list, in insertion order. -/
def akeys {κ ν : Type} (d : List (κ × ν)) : List κ := d.map Prod.fst

/-- Every dict value's `recordId` field equals its key. -/
def keyConsistent (d : List (String × Item)) : Prop := ∀ p ∈ d, p.2.recordId = p.1

/-- Whether a handler response is a success. -/
def respOk {α : Type} : Except HErr α → Bool
  | .ok _ => true
  | .error _ => false

/-- Concrete configuration for witnesses: constant stand-ins for the
abstract hash primitives. -/
def cfgEx : Cfg := ⟨fun _ => List.replicate 32 0, fun _ => List.replicate 32 7, "", "1700000000.0"⟩

/-- A valid 32-byte record id in hex ("0x" followed by 64 times 'a'). -/
def ridHexEx : String := ⟨'0' :: 'x' :: List.replicate 64 'a'⟩

/-- A concrete creation event for witnesses. -/
def cEx : CreatedEv := ⟨List.replicate 32 1, List.replicate 32 2, "u1", 1, "0xOwner", 10⟩

/-- A concrete update event for witnesses. -/
def uEx : UpdatedEv := ⟨List.replicate 32 1, List.replicate 32 3, "u2", 2, "0xUpd", 20⟩

/-! Basic facts about the hex primitives. -/
theorem hexVal?_lt_16 {c : Char} {v : Nat} (h : hexVal? c = some v) : v < 16 := by
  simp only [hexVal?] at h
  split at h
  · simp only [Option.some.injEq] at h; omega
  split at h
  · simp only [Option.some.injEq] at h; omega
  split at h
  · simp only [Option.some.injEq] at h; omega
  exact absurd h (by simp)

theorem unhex_cons_eq_some {c1 c2 : Char} {rest : List Char} {r : List Nat}
    (h : unhex (c1 :: c2 :: rest) = some r) :
    ∃ a b t, hexVal? c1 = some a ∧ hexVal? c2 = some b ∧ unhex rest = some t ∧
      r = (16 * a + b) :: t := by
  simp only [unhex] at h
  cases h1 : hexVal? c1 <;> rw [h1] at h
  · simp at h
  cases h2 : hexVal? c2 <;> rw [h2] at h
  · simp at h
  cases hr : unhex rest <;> rw [hr] at h
  · simp at h
  simp only [Option.some_bind, Option.map_some', Option.some.injEq] at h
  exact ⟨_, _, _, rfl, rfl, rfl, h.symm⟩

theorem unhex_length : ∀ {l : List Char} {r : List Nat}, unhex l = some r →
    l.length = 2 * r.length
  | [], r, h => by simp [unhex] at h; simp [← h]
  | [_], _, h => by simp [unhex] at h
  | c1 :: c2 :: rest, r, h => by
    obtain ⟨a, b, t, _, _, hr, hrr⟩ := unhex_cons_eq_some h
    have ih := unhex_length hr
    subst hrr
    simp only [List.length_cons, ih]
    omega

theorem unhex_isSome_of : ∀ {l : List Char},
    l.length % 2 = 0 → (∀ c ∈ l, (hexVal? c).isSome) → (unhex l).isSome
  | [], _, _ => by simp [unhex]
  | [_], h, _ => by simp at h
  | c1 :: c2 :: rest, he, hm => by
    obtain ⟨a, h1⟩ := Option.isSome_iff_exists.1 (hm c1 (by simp))
    obtain ⟨b, h2⟩ := Option.isSome_iff_exists.1 (hm c2 (by simp))
    have he' : rest.length % 2 = 0 := by simp only [List.length_cons] at he; omega
    have hm' : ∀ c ∈ rest, (hexVal? c).isSome := fun c hc => hm c (by simp [hc])
    obtain ⟨t, hr⟩ := Option.isSome_iff_exists.1 (unhex_isSome_of he' hm')
    simp [unhex, h1, h2, hr]

theorem unhex_even_and_hex : ∀ {l : List Char} {r : List Nat}, unhex l = some r →
    l.length % 2 = 0 ∧ ∀ c ∈ l, (hexVal? c).isSome
  | [], _, _ => by simp
  | [_], _, h => by simp [unhex] at h
  | c1 :: c2 :: rest, r, h => by
    obtain ⟨a, b, t, h1, h2, hr, _⟩ := unhex_cons_eq_some h
    obtain ⟨he, hm⟩ := unhex_even_and_hex hr
    refine ⟨by simp only [List.length_cons]; omega, ?_⟩
    intro c hc
    simp only [List.mem_cons] at hc
    rcases hc with rfl | rfl | hc
    · simp [h1]
    · simp [h2]
    · exact hm c hc

theorem unhex_bytes_lt : ∀ {l : List Char} {r : List Nat}, unhex l = some r →
    ∀ b ∈ r, b < 256
  | [], r, h => by
    simp only [unhex, Option.some.injEq] at h
    subst h; simp
  | [_], _, h => by simp [unhex] at h
  | c1 :: c2 :: rest, r, h => by
    obtain ⟨a, b, t, h1, h2, hr, hrr⟩ := unhex_cons_eq_some h
    subst hrr
    intro x hx
    rcases List.mem_cons.1 hx with hx | hx
    · have v1 := hexVal?_lt_16 h1
      have v2 := hexVal?_lt_16 h2
      omega
    · exact unhex_bytes_lt hr x hx

theorem hexVal?_digitChar {n : Nat} (h : n < 16) :
    hexVal? (Nat.digitChar n) = some n := by
  interval_cases n <;> decide

theorem unhex_hexEncodeList : ∀ {l : List Nat}, (∀ b ∈ l, b < 256) →
    unhex (hexEncodeList l) = some l
  | [], _ => by simp [hexEncodeList, unhex]
  | b :: t, h => by
    have hb : b < 256 := h b (List.mem_cons_self _ _)
    have hhi : b / 16 < 16 := by omega
    have hlo : b % 16 < 16 := Nat.mod_lt _ (by omega)
    have ih := unhex_hexEncodeList (l := t) (fun x hx => h x (List.mem_cons_of_mem _ hx))
    simp only [hexEncodeList, unhex, hexVal?_digitChar hhi, hexVal?_digitChar hlo, ih,
      Option.some_bind, Option.map_some']
    have hb2 : 16 * (b / 16) + b % 16 = b := by omega
    rw [hb2]

theorem decDigits_eq_concat (n : Nat) :
    decDigits n = (if n < 10 then [] else decDigits (n / 10)) ++ [Nat.digitChar (n % 10)] := by
  rw [decDigits]
  split
  · next h => simp [Nat.mod_eq_of_lt h]
  · next h => simp [h]

theorem decDigits_ne_nil (n : Nat) : decDigits n ≠ [] := by
  rw [decDigits_eq_concat]
  simp

theorem toDigitsCore_eq : ∀ (fuel : Nat) {n : Nat} (ds : List Char), n < fuel →
    Nat.toDigitsCore 10 fuel n ds = decDigits n ++ ds
  | 0, _, _, h => absurd h (by omega)
  | fuel + 1, n, ds, h => by
    conv_lhs => rw [Nat.toDigitsCore]
    by_cases h10 : n / 10 = 0
    · have hn : n < 10 := by omega
      simp only [h10, if_pos]
      rw [decDigits]
      simp [hn, Nat.mod_eq_of_lt hn]
    · have hge : ¬ n < 10 := by omega
      have hlt : n / 10 < fuel := by
        have := Nat.div_lt_self (show 0 < n by omega) (show 1 < 10 by omega)
        omega
      simp only [h10, if_neg, ite_false]
      rw [toDigitsCore_eq fuel (Nat.digitChar (n % 10) :: ds) hlt]
      conv_rhs => rw [decDigits]
      simp [hge, List.append_assoc]

theorem digitChar_inj_lt10 (a b : Nat) (ha : a < 10) (hb : b < 10)
    (h : Nat.digitChar a = Nat.digitChar b) : a = b := by
  revert h
  interval_cases a <;> interval_cases b <;> decide

theorem decDigits_inj (m : Nat) : ∀ n, decDigits m = decDigits n → m = n := by
  induction m using Nat.strong_induction_on with
  | _ m ih =>
    intro n h
    rw [decDigits_eq_concat m, decDigits_eq_concat n] at h
    have h' := congrArg List.reverse h
    simp only [List.reverse_append, List.reverse_cons, List.reverse_nil, List.nil_append,
      List.cons_append] at h'
    obtain ⟨hab, hrev⟩ := List.cons.inj h'
    have hAB : (if m < 10 then ([] : List Char) else decDigits (m / 10)) =
        (if n < 10 then [] else decDigits (n / 10)) := by
      have := congrArg List.reverse hrev
      simpa using this
    have hmodeq : m % 10 = n % 10 :=
      digitChar_inj_lt10 _ _ (Nat.mod_lt _ (by omega)) (Nat.mod_lt _ (by omega)) hab
    by_cases hm : m < 10 <;> by_cases hn : n < 10
    · omega
    · rw [if_pos hm, if_neg hn] at hAB
      exact absurd hAB.symm (decDigits_ne_nil _)
    · rw [if_neg hm, if_pos hn] at hAB
      exact absurd hAB (decDigits_ne_nil _)
    · rw [if_neg hm, if_neg hn] at hAB
      have hdiv : m / 10 = n / 10 :=
        ih (m / 10) (Nat.div_lt_self (by omega) (by omega)) _ hAB
      omega

theorem repr_eq_decDigits (n : Nat) : Nat.repr n = ⟨decDigits n⟩ := by
  show (Nat.toDigits 10 n).asString = _
  unfold Nat.toDigits
  rw [toDigitsCore_eq (n + 1) [] (Nat.lt_succ_self n)]
  simp [List.asString]

theorem nat_repr_inj {m n : Nat} (h : Nat.repr m = Nat.repr n) : m = n := by
  rw [repr_eq_decDigits, repr_eq_decDigits] at h
  exact decDigits_inj m n (congrArg String.data h)

theorem fileNameV_inj {a b : Nat} (h : fileNameV a = fileNameV b) : a = b := by
  have hd := congrArg String.data h
  simp only [fileNameV, String.data_append] at hd
  have h1 : "v".data ++ (Nat.repr a).data = "v".data ++ (Nat.repr b).data :=
    List.append_cancel_right hd
  have h2 : (Nat.repr a).data = (Nat.repr b).data := List.append_cancel_left h1
  exact nat_repr_inj (congrArg String.mk h2)

/-! Association-list and chain lemmas. -/
theorem alookup_aset_self {κ ν : Type} [DecidableEq κ] (k : κ) (v : ν) :
    ∀ d : List (κ × ν), alookup k (aset k v d) = some v
  | [] => by simp [aset, alookup]
  | (k', v') :: t => by
    by_cases h : k' = k
    · simp [aset, h, alookup]
    · simp [aset, h, alookup, alookup_aset_self k v t]

theorem alookup_aset_ne {κ ν : Type} [DecidableEq κ] {k j : κ} (v : ν) (h : j ≠ k) :
    ∀ d : List (κ × ν), alookup j (aset k v d) = alookup j d
  | [] => by simp [aset, alookup, Ne.symm h]
  | (k', v') :: t => by
    by_cases hk : k' = k
    · subst hk
      simp [aset, alookup, Ne.symm h]
    · by_cases hj : k' = j
      · subst hj
        simp [aset, hk, alookup]
      · simp [aset, hk, alookup, hj, alookup_aset_ne v h t]

theorem chainGet_aset_self (c : Chain) (rid : List Nat) (r : ChainRecord) :
    chainGet (aset rid r c) rid = r := by
  simp [chainGet, alookup_aset_self]

theorem chainGet_aset_ne (c : Chain) {rid rid' : List Nat} (r : ChainRecord)
    (h : rid' ≠ rid) : chainGet (aset rid r c) rid' = chainGet c rid' := by
  simp [chainGet, alookup_aset_ne r h]

theorem b32_spec {s : String} {rid : List Nat} (h : b32 s = some rid) :
    unhex (strip0x s).data = some rid ∧ rid.length = 32 := by
  simp only [b32] at h
  cases hu : unhex (strip0x s).data <;> rw [hu] at h
  · simp at h
  · simp only [Option.some_bind] at h
    split at h
    · next hl =>
      injection h with h2
      subst h2
      exact ⟨rfl, hl⟩
    · simp at h

theorem unhex_hexEncode {l : List Nat} (h : ∀ b ∈ l, b < 256) :
    unhex (hexEncode l).data = some l := by
  simpa [hexEncode] using unhex_hexEncodeList h

/-! Branch characterizations of the handlers. -/
theorem create_err {cfg : Cfg} {req : CreateReq} {e : HErr} (sOk : Bool)
    (hres : resolveRid cfg req = .error e) :
    create cfg sOk req = ⟨[], [], .error e⟩ := by
  simp [create, hres]

theorem create_json {cfg : Cfg} {req : CreateReq} {rid : List Nat}
    (hres : resolveRid cfg req = .ok rid) (hj : truthy req.json_text = true) :
    create cfg true req =
      { writes := [⟨hexEncode rid, fileNameV 1, req.json_text.getD ""⟩]
        submitted := [⟨true, rid,
          toBytesOfHex (hexEncode (cfg.sha256 (strBytes (req.json_text.getD "")))),
          cfg.publicBaseUrl ++ "/objects/" ++ hexEncode rid ++ "/" ++ fileNameV 1⟩]
        resp := .ok ⟨toHex0x rid,
          cfg.publicBaseUrl ++ "/objects/" ++ hexEncode rid ++ "/" ++ fileNameV 1⟩ } := by
  simp [create, hres, hj]

theorem create_json_storageFail {cfg : Cfg} {req : CreateReq} {rid : List Nat}
    (hres : resolveRid cfg req = .ok rid) (hj : truthy req.json_text = true) :
    create cfg false req = ⟨[], [], .error (.exn "object store write failed")⟩ := by
  simp [create, hres, hj]

theorem create_uriOnly {cfg : Cfg} {req : CreateReq} {rid : List Nat} (sOk : Bool)
    (hres : resolveRid cfg req = .ok rid) (hj : truthy req.json_text = false)
    (hu : truthy req.uri = true) :
    create cfg sOk req =
      { writes := []
        submitted := [⟨true, rid, toBytesOfHex zeros64, req.uri.getD ""⟩]
        resp := .ok ⟨toHex0x rid, req.uri.getD ""⟩ } := by
  simp [create, hres, hj, hu]

theorem create_neither {cfg : Cfg} {req : CreateReq} {rid : List Nat} (sOk : Bool)
    (hres : resolveRid cfg req = .ok rid) (hj : truthy req.json_text = false)
    (hu : truthy req.uri = false) :
    create cfg sOk req = ⟨[], [], .error (.http 400 "json_text 또는 uri 중 하나는 필요")⟩ := by
  simp [create, hres, hj, hu]

theorem update_badId {cfg : Cfg} {req : UpdateReq} {s : String}
    (get : List Nat → ChainRecord) (sOk : Bool) (hb : b32 s = none) :
    update cfg get sOk s req = ⟨[], [], .error (.http 400 "invalid recordId")⟩ := by
  simp [update, hb]

theorem update_notFound {cfg : Cfg} {req : UpdateReq} {s : String} {rid : List Nat}
    {get : List Nat → ChainRecord} (sOk : Bool) (hb : b32 s = some rid)
    (how : (get rid).owner = zeroAddress) :
    update cfg get sOk s req = ⟨[], [], .error (.http 404 "not found")⟩ := by
  simp [update, hb, how]

theorem update_json {cfg : Cfg} {req : UpdateReq} {s : String} {rid : List Nat}
    {get : List Nat → ChainRecord} (hb : b32 s = some rid)
    (how : ¬ (get rid).owner = zeroAddress) (hj : truthy req.json_text = true) :
    update cfg get true s req =
      { writes := [⟨strip0x s, fileNameV ((get rid).version + 1), req.json_text.getD ""⟩]
        submitted := [⟨false, rid,
          toBytesOfHex (hexEncode (cfg.sha256 (strBytes (req.json_text.getD "")))),
          cfg.publicBaseUrl ++ "/objects/" ++ strip0x s ++ "/" ++
            fileNameV ((get rid).version + 1)⟩]
        resp := .ok ⟨s, cfg.publicBaseUrl ++ "/objects/" ++ strip0x s ++ "/" ++
          fileNameV ((get rid).version + 1)⟩ } := by
  simp [update, hb, how, hj]

theorem update_json_storageFail {cfg : Cfg} {req : UpdateReq} {s : String} {rid : List Nat}
    {get : List Nat → ChainRecord} (hb : b32 s = some rid)
    (how : ¬ (get rid).owner = zeroAddress) (hj : truthy req.json_text = true) :
    update cfg get false s req = ⟨[], [], .error (.exn "object store write failed")⟩ := by
  simp [update, hb, how, hj]

theorem update_uriOnly {cfg : Cfg} {req : UpdateReq} {s : String} {rid : List Nat}
    {get : List Nat → ChainRecord} (sOk : Bool) (hb : b32 s = some rid)
    (how : ¬ (get rid).owner = zeroAddress) (hj : truthy req.json_text = false)
    (hu : truthy req.uri = true) :
    update cfg get sOk s req =
      { writes := []
        submitted := [⟨false, rid, toBytesOfHex zeros64, req.uri.getD ""⟩]
        resp := .ok ⟨s, req.uri.getD ""⟩ } := by
  simp [update, hb, how, hj, hu]

theorem update_neither {cfg : Cfg} {req : UpdateReq} {s : String} {rid : List Nat}
    {get : List Nat → ChainRecord} (sOk : Bool) (hb : b32 s = some rid)
    (how : ¬ (get rid).owner = zeroAddress) (hj : truthy req.json_text = false)
    (hu : truthy req.uri = false) :
    update cfg get sOk s req =
      ⟨[], [], .error (.http 400 "json_text 또는 uri 중 하나는 필요")⟩ := by
  simp [update, hb, how, hj, hu]

theorem resolveRid_bytes_lt {cfg : Cfg} {req : CreateReq} {rid : List Nat}
    (hkec : ∀ s : List Nat, ∀ b ∈ cfg.keccak s, b < 256)
    (hres : resolveRid cfg req = .ok rid) : ∀ b ∈ rid, b < 256 := by
  simp only [resolveRid] at hres
  split at hres
  · cases hb : b32 (req.recordIdHex.getD "") <;> rw [hb] at hres
    · exact absurd hres (by simp)
    · injection hres with h2
      subst h2
      exact unhex_bytes_lt (b32_spec hb).1
  · injection hres with h2
    subst h2
    exact hkec _

theorem submitAll_single (account : String) (c : Chain) (s : Submission) :
    submitAll account c [s] = ((applySub account 0 c s).1, (applySub account 0 c s).2) := by
  simp [submitAll]

theorem nodup_concat_of {α : Type} {l : List α} {a : α} (h : l.Nodup) (ha : a ∉ l) :
    (l ++ [a]).Nodup := by
  rw [List.nodup_append]
  refine ⟨h, List.nodup_singleton a, ?_⟩
  intro x hx hxa
  have hx2 : x = a := by simpa using hxa
  subst hx2
  exact ha hx

theorem WInv_step {cfg : Cfg} {account : String} (hacct : account ≠ zeroAddress)
    (hkec : ∀ s : List Nat, ∀ b ∈ cfg.keccak s, b < 256)
    {c : Chain} {ws : List WriteOp} (op : Op) (hinv : WInv c ws)
    (hrev : (runOp cfg account c op).reverted = false) :
    WInv (runOp cfg account c op).chain (ws ++ (runOp cfg account c op).writes) := by
  obtain ⟨hnd, hmem⟩ := hinv
  cases op with
  | create req =>
    cases hres : resolveRid cfg req with
    | error e =>
      have hrun : runOp cfg account c (.create req) = ⟨c, [], false⟩ := by
        simp [runOp, create_err true hres, submitAll]
      rw [hrun]
      exact ⟨by simpa using hnd, by simpa using hmem⟩
    | ok rid =>
      have hb256 : ∀ b ∈ rid, b < 256 := resolveRid_bytes_lt hkec hres
      have hrt : unhex (hexEncode rid).data = some rid := unhex_hexEncode hb256
      by_cases hj : truthy req.json_text
      · -- inline-content create: one write, one create submission
        have ho := create_json hres hj
        have hrun : runOp cfg account c (.create req) =
            ⟨(applySub account 0 c ⟨true, rid,
                toBytesOfHex (hexEncode (cfg.sha256 (strBytes (req.json_text.getD "")))),
                cfg.publicBaseUrl ++ "/objects/" ++ hexEncode rid ++ "/" ++ fileNameV 1⟩).1,
              [⟨hexEncode rid, fileNameV 1, req.json_text.getD ""⟩],
              (applySub account 0 c ⟨true, rid,
                toBytesOfHex (hexEncode (cfg.sha256 (strBytes (req.json_text.getD "")))),
                cfg.publicBaseUrl ++ "/objects/" ++ hexEncode rid ++ "/" ++ fileNameV 1⟩).2⟩ := by
          simp [runOp, ho, submitAll]
        rw [hrun] at hrev ⊢
        by_cases how : (chainGet c rid).owner = zeroAddress
        · have hap : applySub account 0 c ⟨true, rid,
              toBytesOfHex (hexEncode (cfg.sha256 (strBytes (req.json_text.getD "")))),
              cfg.publicBaseUrl ++ "/objects/" ++ hexEncode rid ++ "/" ++ fileNameV 1⟩ =
              (aset rid ⟨toBytesOfHex (hexEncode (cfg.sha256 (strBytes (req.json_text.getD "")))),
                cfg.publicBaseUrl ++ "/objects/" ++ hexEncode rid ++ "/" ++ fileNameV 1,
                1, account, 0, 0, account⟩ c, false) := by
            simp [applySub, how]
          rw [hap]
          dsimp only
          have hold : ∀ w ∈ ws, ∃ rid' ver',
              unhex w.dir.data = some rid' ∧ w.file = fileNameV ver' ∧ 1 ≤ ver' ∧ rid' ≠ rid ∧
              (chainGet c rid').owner ≠ zeroAddress ∧ ver' ≤ (chainGet c rid').version := by
            intro w hw
            obtain ⟨rid', ver', hdir, hfile, h1, hown, hver⟩ := hmem w hw
            refine ⟨rid', ver', hdir, hfile, h1, ?_, hown, hver⟩
            intro hEq
            exact hown (hEq ▸ how)
          constructor
          · -- path freshness
            rw [List.map_append]
            refine nodup_concat_of hnd ?_
            intro hmem2
            obtain ⟨w', hw', hpath⟩ := List.mem_map.1 hmem2
            obtain ⟨rid', ver', hdir, hfile, h1, hne, hown, hver⟩ := hold w' hw'
            have hdirEq : w'.dir = hexEncode rid := congrArg Prod.fst hpath
            rw [hdirEq, hrt] at hdir
            exact hne (by injection hdir with h2; exact h2.symm)
          · intro w hw
            rcases List.mem_append.1 hw with hw | hw
            · obtain ⟨rid', ver', hdir, hfile, h1, hne, hown, hver⟩ := hold w hw
              exact ⟨rid', ver', hdir, hfile, h1,
                by rw [chainGet_aset_ne c _ hne]; exact hown,
                by rw [chainGet_aset_ne c _ hne]; exact hver⟩
            · have hw' : w = ⟨hexEncode rid, fileNameV 1, req.json_text.getD ""⟩ := by
                simpa using hw
              subst hw'
              exact ⟨rid, 1, hrt, rfl, le_refl 1,
                by rw [chainGet_aset_self]; exact hacct,
                by rw [chainGet_aset_self]⟩
        · exfalso
          simp [applySub, how] at hrev
      · by_cases hu : truthy req.uri
        · -- external-uri create: no write, one create submission
          have ho := create_uriOnly true hres (by simpa using hj) hu
          have hrun : runOp cfg account c (.create req) =
              ⟨(applySub account 0 c ⟨true, rid, toBytesOfHex zeros64, req.uri.getD ""⟩).1,
                [], (applySub account 0 c ⟨true, rid, toBytesOfHex zeros64, req.uri.getD ""⟩).2⟩ := by
            simp [runOp, ho, submitAll]
          rw [hrun] at hrev ⊢
          by_cases how : (chainGet c rid).owner = zeroAddress
          · have hap : applySub account 0 c ⟨true, rid, toBytesOfHex zeros64, req.uri.getD ""⟩ =
                (aset rid ⟨toBytesOfHex zeros64, req.uri.getD "", 1, account, 0, 0, account⟩ c,
                  false) := by
              simp [applySub, how]
            rw [hap]
            dsimp only
            refine ⟨by simpa using hnd, ?_⟩
            intro w hw
            rw [List.append_nil] at hw
            obtain ⟨rid', ver', hdir, hfile, h1, hown, hver⟩ := hmem w hw
            have hne : rid' ≠ rid := fun hEq => hown (hEq ▸ how)
            exact ⟨rid', ver', hdir, hfile, h1,
              by rw [chainGet_aset_ne c _ hne]; exact hown,
              by rw [chainGet_aset_ne c _ hne]; exact hver⟩
          · exfalso
            simp [applySub, how] at hrev
        · have ho := create_neither true hres (by simpa using hj) (by simpa using hu)
          have hrun : runOp cfg account c (.create req) = ⟨c, [], false⟩ := by
            simp [runOp, ho, submitAll]
          rw [hrun]
          exact ⟨by simpa using hnd, by simpa using hmem⟩
  | update ridHex req =>
    cases hb : b32 ridHex with
    | none =>
      have hrun : runOp cfg account c (.update ridHex req) = ⟨c, [], false⟩ := by
        simp [runOp, update_badId (chainGet c) true hb, submitAll]
      rw [hrun]
      exact ⟨by simpa using hnd, by simpa using hmem⟩
    | some rid =>
      by_cases how : (chainGet c rid).owner = zeroAddress
      · have hrun : runOp cfg account c (.update ridHex req) = ⟨c, [], false⟩ := by
          simp [runOp, update_notFound true hb how, submitAll]
        rw [hrun]
        exact ⟨by simpa using hnd, by simpa using hmem⟩
      · have hurt : unhex (strip0x ridHex).data = some rid := (b32_spec hb).1
        by_cases hj : truthy req.json_text
        · -- inline-content update: one write at current version + 1
          have ho := @update_json cfg req ridHex rid (chainGet c) hb how hj
          have hrun : runOp cfg account c (.update ridHex req) =
              ⟨(applySub account 0 c ⟨false, rid,
                  toBytesOfHex (hexEncode (cfg.sha256 (strBytes (req.json_text.getD "")))),
                  cfg.publicBaseUrl ++ "/objects/" ++ strip0x ridHex ++ "/" ++
                    fileNameV ((chainGet c rid).version + 1)⟩).1,
                [⟨strip0x ridHex, fileNameV ((chainGet c rid).version + 1),
                  req.json_text.getD ""⟩],
                (applySub account 0 c ⟨false, rid,
                  toBytesOfHex (hexEncode (cfg.sha256 (strBytes (req.json_text.getD "")))),
                  cfg.publicBaseUrl ++ "/objects/" ++ strip0x ridHex ++ "/" ++
                    fileNameV ((chainGet c rid).version + 1)⟩).2⟩ := by
            simp [runOp, ho, submitAll]
          rw [hrun] at hrev ⊢
          have hap : applySub account 0 c ⟨false, rid,
              toBytesOfHex (hexEncode (cfg.sha256 (strBytes (req.json_text.getD "")))),
              cfg.publicBaseUrl ++ "/objects/" ++ strip0x ridHex ++ "/" ++
                fileNameV ((chainGet c rid).version + 1)⟩ =
              (aset rid ⟨toBytesOfHex (hexEncode (cfg.sha256 (strBytes (req.json_text.getD "")))),
                cfg.publicBaseUrl ++ "/objects/" ++ strip0x ridHex ++ "/" ++
                  fileNameV ((chainGet c rid).version + 1),
                (chainGet c rid).version + 1, (chainGet c rid).owner,
                (chainGet c rid).createdAt, 0, account⟩ c, false) := by
            simp [applySub, how]
          rw [hap]
          dsimp only
          constructor
          · rw [List.map_append]
            refine nodup_concat_of hnd ?_
            intro hmem2
            obtain ⟨w', hw', hpath⟩ := List.mem_map.1 hmem2
            obtain ⟨rid', ver', hdir, hfile, h1, hown, hver⟩ := hmem w' hw'
            have hdirEq : w'.dir = strip0x ridHex := congrArg Prod.fst hpath
            have hfileEq : w'.file = fileNameV ((chainGet c rid).version + 1) :=
              congrArg Prod.snd hpath
            rw [hdirEq, hurt] at hdir
            have hridEq : rid' = rid := by injection hdir with h2; exact h2.symm
            have hverEq : ver' = (chainGet c rid).version + 1 :=
              fileNameV_inj (hfile.symm.trans hfileEq)
            rw [hridEq] at hver
            omega
          · intro w hw
            rcases List.mem_append.1 hw with hw | hw
            · obtain ⟨rid', ver', hdir, hfile, h1, hown, hver⟩ := hmem w hw
              by_cases hne : rid' = rid
              · subst hne
                refine ⟨rid', ver', hdir, hfile, h1, ?_, ?_⟩
                · rw [chainGet_aset_self]
                  exact how
                · rw [chainGet_aset_self]
                  simp only []
                  omega
              · exact ⟨rid', ver', hdir, hfile, h1,
                  by rw [chainGet_aset_ne c _ hne]; exact hown,
                  by rw [chainGet_aset_ne c _ hne]; exact hver⟩
            · have hw' : w = ⟨strip0x ridHex, fileNameV ((chainGet c rid).version + 1),
                  req.json_text.getD ""⟩ := by simpa using hw
              subst hw'
              exact ⟨rid, (chainGet c rid).version + 1, hurt, rfl, by omega,
                by rw [chainGet_aset_self]; exact how,
                by rw [chainGet_aset_self]⟩
        · by_cases hu : truthy req.uri
          · -- external-uri update: no write, version still bumps
            have ho := @update_uriOnly cfg req ridHex rid (chainGet c) true hb how (by simpa using hj) hu
            have hrun : runOp cfg account c (.update ridHex req) =
                ⟨(applySub account 0 c ⟨false, rid, toBytesOfHex zeros64, req.uri.getD ""⟩).1,
                  [],
                  (applySub account 0 c ⟨false, rid, toBytesOfHex zeros64, req.uri.getD ""⟩).2⟩ := by
              simp [runOp, ho, submitAll]
            rw [hrun]
            have hap : applySub account 0 c ⟨false, rid, toBytesOfHex zeros64, req.uri.getD ""⟩ =
                (aset rid ⟨toBytesOfHex zeros64, req.uri.getD "",
                  (chainGet c rid).version + 1, (chainGet c rid).owner,
                  (chainGet c rid).createdAt, 0, account⟩ c, false) := by
              simp [applySub, how]
            rw [hap]
            dsimp only
            refine ⟨by simpa using hnd, ?_⟩
            intro w hw
            rw [List.append_nil] at hw
            obtain ⟨rid', ver', hdir, hfile, h1, hown, hver⟩ := hmem w hw
            by_cases hne : rid' = rid
            · subst hne
              refine ⟨rid', ver', hdir, hfile, h1, ?_, ?_⟩
              · rw [chainGet_aset_self]
                exact how
              · rw [chainGet_aset_self]
                simp only []
                omega
            · exact ⟨rid', ver', hdir, hfile, h1,
                by rw [chainGet_aset_ne c _ hne]; exact hown,
                by rw [chainGet_aset_ne c _ hne]; exact hver⟩
          · have ho := @update_neither cfg req ridHex rid (chainGet c) true hb how (by simpa using hj) (by simpa using hu)
            have hrun : runOp cfg account c (.update ridHex req) = ⟨c, [], false⟩ := by
              simp [runOp, ho, submitAll]
            rw [hrun]
            exact ⟨by simpa using hnd, by simpa using hmem⟩

theorem WInv_run {cfg : Cfg} {account : String} (hacct : account ≠ zeroAddress)
    (hkec : ∀ s : List Nat, ∀ b ∈ cfg.keccak s, b < 256) :
    ∀ (ops : List Op) (c : Chain) (ws : List WriteOp), WInv c ws →
      (run cfg account c ops).reverted = false →
      WInv (run cfg account c ops).chain (ws ++ (run cfg account c ops).writes)
  | [], c, ws, hinv, _ => by simpa [run] using hinv
  | op :: ops, c, ws, hinv, hrev => by
    simp only [run] at hrev ⊢
    rw [Bool.or_eq_false_iff] at hrev
    have h1 := WInv_step hacct hkec op hinv hrev.1
    have h2 := WInv_run hacct hkec ops (runOp cfg account c op).chain
      (ws ++ (runOp cfg account c op).writes) h1 hrev.2
    simpa [List.append_assoc] using h2

theorem mem_akeys_aset {κ ν : Type} [DecidableEq κ] {k j : κ} (v : ν) :
    ∀ d : List (κ × ν), j ∈ akeys (aset k v d) ↔ j = k ∨ j ∈ akeys d
  | [] => by simp [aset, akeys]
  | (k', v') :: t => by
    by_cases h : k' = k
    · subst h
      simp [aset, akeys]
    · simp only [aset, if_neg h, akeys, List.map_cons, List.mem_cons]
      have := mem_akeys_aset (k := k) (j := j) v t
      simp only [akeys] at this
      rw [this]
      tauto

theorem nodup_akeys_aset {κ ν : Type} [DecidableEq κ] {k : κ} (v : ν) :
    ∀ d : List (κ × ν), (akeys d).Nodup → (akeys (aset k v d)).Nodup
  | [], _ => by simp [aset, akeys]
  | (k', v') :: t, h => by
    simp only [akeys, List.map_cons, List.nodup_cons] at h
    by_cases hk : k' = k
    · subst hk
      have hset : aset k' v ((k', v') :: t) = (k', v) :: t := by simp [aset]
      rw [hset]
      simpa [akeys, List.nodup_cons] using h
    · simp only [aset, if_neg hk, akeys, List.map_cons, List.nodup_cons]
      constructor
      · intro hmem
        have := (mem_akeys_aset v t).1 hmem
        rcases this with rfl | hmem2
        · exact hk rfl
        · exact h.1 hmem2
      · exact nodup_akeys_aset v t h.2

theorem alookup_eq_some_of_mem {κ ν : Type} [DecidableEq κ] {k : κ} {v : ν} :
    ∀ {d : List (κ × ν)}, (akeys d).Nodup → (k, v) ∈ d → alookup k d = some v
  | [], _, hm => by simp at hm
  | (k', v') :: t, hnd, hm => by
    simp only [akeys, List.map_cons, List.nodup_cons] at hnd
    rcases List.mem_cons.1 hm with heq | hm2
    · injection heq with h1 h2
      subst h1
      subst h2
      simp [alookup]
    · have hk : k' ≠ k := by
        intro hEq
        subst hEq
        exact hnd.1 (by simpa [akeys] using List.mem_map_of_mem Prod.fst hm2)
      simp only [alookup, if_neg hk]
      exact alookup_eq_some_of_mem hnd.2 hm2

theorem mem_of_alookup_eq_some {κ ν : Type} [DecidableEq κ] {k : κ} {v : ν} :
    ∀ {d : List (κ × ν)}, alookup k d = some v → (k, v) ∈ d
  | [], h => by simp [alookup] at h
  | (k', v') :: t, h => by
    simp only [alookup] at h
    split at h
    · next hk =>
      injection h with h2
      subst hk
      subst h2
      exact List.mem_cons_self _ _
    · exact List.mem_cons_of_mem _ (mem_of_alookup_eq_some h)

theorem mergeUpdated_collapse (o : Option Item) (u u' : UpdatedEv) :
    mergeUpdated (some (mergeUpdated o u)) u' = mergeUpdated o u' := rfl

theorem alookup_foldC (k : String) : ∀ (cs : List CreatedEv) (d : List (String × Item)),
    alookup k (cs.foldl (fun d e => aset (hexEncode e.recordId) (itemOfCreated e) d) d) =
      match cs.reverse.find? (fun e => hexEncode e.recordId == k) with
      | some e => some (itemOfCreated e)
      | none => alookup k d
  | [], d => by simp
  | e :: rest, d => by
    simp only [List.foldl_cons, List.reverse_cons, List.find?_append]
    rw [alookup_foldC k rest]
    by_cases hk : hexEncode e.recordId = k
    · have hstep : alookup k (aset (hexEncode e.recordId) (itemOfCreated e) d) =
          some (itemOfCreated e) := by
        rw [← hk]
        exact alookup_aset_self _ _ d
      rw [hstep]
      cases hf : rest.reverse.find? (fun e => hexEncode e.recordId == k) with
      | some e' => simp [Option.or]
      | none =>
        have hbeq : (hexEncode e.recordId == k) = true := by simp [hk]
        have hone : ([e].find? fun e => hexEncode e.recordId == k) = some e := by
          simp [List.find?, hbeq]
        simp [hone, Option.or]
    · have hne : k ≠ hexEncode e.recordId := fun hEq => hk hEq.symm
      have hstep : alookup k (aset (hexEncode e.recordId) (itemOfCreated e) d) =
          alookup k d := alookup_aset_ne _ hne d
      rw [hstep]
      cases hf : rest.reverse.find? (fun e => hexEncode e.recordId == k) with
      | some e' => simp [Option.or]
      | none =>
        have hbeq : (hexEncode e.recordId == k) = false := by simp [hk]
        have hone : ([e].find? fun e => hexEncode e.recordId == k) = none := by
          simp [List.find?, hbeq]
        simp [hone, Option.or]

theorem alookup_foldU (k : String) : ∀ (us : List UpdatedEv) (d : List (String × Item)),
    alookup k (us.foldl
      (fun d e => aset (hexEncode e.recordId)
        (mergeUpdated (alookup (hexEncode e.recordId) d) e) d) d) =
      match us.reverse.find? (fun e => hexEncode e.recordId == k) with
      | some u => some (mergeUpdated (alookup k d) u)
      | none => alookup k d
  | [], d => by simp
  | e :: rest, d => by
    simp only [List.foldl_cons, List.reverse_cons, List.find?_append]
    rw [alookup_foldU k rest]
    by_cases hk : hexEncode e.recordId = k
    · have hstep : alookup k (aset (hexEncode e.recordId)
          (mergeUpdated (alookup (hexEncode e.recordId) d) e) d) =
          some (mergeUpdated (alookup k d) e) := by
        rw [← hk]
        exact alookup_aset_self _ _ d
      rw [hstep]
      cases hf : rest.reverse.find? (fun e => hexEncode e.recordId == k) with
      | some u => simp [Option.or, mergeUpdated_collapse]
      | none =>
        have hbeq : (hexEncode e.recordId == k) = true := by simp [hk]
        have hone : ([e].find? fun e => hexEncode e.recordId == k) = some e := by
          simp [List.find?, hbeq]
        simp [hone, Option.or]
    · have hne : k ≠ hexEncode e.recordId := fun hEq => hk hEq.symm
      have hstep : alookup k (aset (hexEncode e.recordId)
          (mergeUpdated (alookup (hexEncode e.recordId) d) e) d) =
          alookup k d := alookup_aset_ne _ hne d
      rw [hstep]
      cases hf : rest.reverse.find? (fun e => hexEncode e.recordId == k) with
      | some u => simp [Option.or]
      | none =>
        have hbeq : (hexEncode e.recordId == k) = false := by simp [hk]
        have hone : ([e].find? fun e => hexEncode e.recordId == k) = none := by
          simp [List.find?, hbeq]
        simp [hone, Option.or]

theorem alookup_buildItems (cs : List CreatedEv) (us : List UpdatedEv) (k : String) :
    alookup k (buildItems cs us) = specItem cs us k := by
  unfold buildItems specItem lastUpdateFor lastCreateFor
  rw [alookup_foldU, alookup_foldC]
  cases us.reverse.find? (fun e => hexEncode e.recordId == k) <;>
    cases cs.reverse.find? (fun e => hexEncode e.recordId == k) <;>
      simp [alookup]

theorem mem_akeys_foldC (k : String) : ∀ (cs : List CreatedEv) (d : List (String × Item)),
    (k ∈ akeys (cs.foldl (fun d e => aset (hexEncode e.recordId) (itemOfCreated e) d) d) ↔
      (∃ e ∈ cs, hexEncode e.recordId = k) ∨ k ∈ akeys d)
  | [], d => by simp
  | e :: rest, d => by
    simp only [List.foldl_cons]
    rw [mem_akeys_foldC k rest]
    rw [mem_akeys_aset]
    simp only [List.mem_cons]
    constructor
    · rintro (⟨e', he', hk⟩ | (rfl | hm))
      · exact Or.inl ⟨e', Or.inr he', hk⟩
      · exact Or.inl ⟨e, Or.inl rfl, rfl⟩
      · exact Or.inr hm
    · rintro (⟨e', (rfl | he'), hk⟩ | hm)
      · exact Or.inr (Or.inl hk.symm)
      · exact Or.inl ⟨e', he', hk⟩
      · exact Or.inr (Or.inr hm)

theorem mem_akeys_foldU (k : String) : ∀ (us : List UpdatedEv) (d : List (String × Item)),
    (k ∈ akeys (us.foldl
        (fun d e => aset (hexEncode e.recordId)
          (mergeUpdated (alookup (hexEncode e.recordId) d) e) d) d) ↔
      (∃ e ∈ us, hexEncode e.recordId = k) ∨ k ∈ akeys d)
  | [], d => by simp
  | e :: rest, d => by
    simp only [List.foldl_cons]
    rw [mem_akeys_foldU k rest]
    rw [mem_akeys_aset]
    simp only [List.mem_cons]
    constructor
    · rintro (⟨e', he', hk⟩ | (rfl | hm))
      · exact Or.inl ⟨e', Or.inr he', hk⟩
      · exact Or.inl ⟨e, Or.inl rfl, rfl⟩
      · exact Or.inr hm
    · rintro (⟨e', (rfl | he'), hk⟩ | hm)
      · exact Or.inr (Or.inl hk.symm)
      · exact Or.inl ⟨e', he', hk⟩
      · exact Or.inr (Or.inr hm)

theorem nodup_akeys_foldC : ∀ (cs : List CreatedEv) (d : List (String × Item)),
    (akeys d).Nodup →
    (akeys (cs.foldl (fun d e => aset (hexEncode e.recordId) (itemOfCreated e) d) d)).Nodup
  | [], _, h => h
  | e :: rest, d, h => by
    simp only [List.foldl_cons]
    exact nodup_akeys_foldC rest _ (nodup_akeys_aset _ d h)

theorem nodup_akeys_foldU : ∀ (us : List UpdatedEv) (d : List (String × Item)),
    (akeys d).Nodup →
    (akeys (us.foldl
      (fun d e => aset (hexEncode e.recordId)
        (mergeUpdated (alookup (hexEncode e.recordId) d) e) d) d)).Nodup
  | [], _, h => h
  | e :: rest, d, h => by
    simp only [List.foldl_cons]
    exact nodup_akeys_foldU rest _ (nodup_akeys_aset _ d h)

theorem keyConsistent_aset (k : String) (v : Item) (hv : v.recordId = k) :
    ∀ {d : List (String × Item)}, keyConsistent d → keyConsistent (aset k v d)
  | [], _ => by
    intro p hp
    simp only [aset, List.mem_singleton] at hp
    subst hp
    exact hv
  | (k', v') :: t, h => by
    intro p hp
    simp only [aset] at hp
    split at hp
    · rcases List.mem_cons.1 hp with rfl | hp2
      · exact hv
      · exact h _ (List.mem_cons_of_mem _ hp2)
    · rcases List.mem_cons.1 hp with rfl | hp2
      · exact h _ (List.mem_cons_self _ _)
      · exact keyConsistent_aset k v hv (fun q hq => h q (List.mem_cons_of_mem _ hq)) p hp2

theorem keyConsistent_buildItems (cs : List CreatedEv) (us : List UpdatedEv) :
    keyConsistent (buildItems cs us) := by
  unfold buildItems
  generalize hd : (cs.foldl (fun d e => aset (hexEncode e.recordId) (itemOfCreated e) d) []) = d1
  have h1 : keyConsistent d1 := by
    subst hd
    generalize hbase : ([] : List (String × Item)) = base
    have hb : keyConsistent base := by
      subst hbase
      intro p hp
      simp at hp
    clear hbase
    induction cs generalizing base with
    | nil => exact hb
    | cons e rest ih =>
      simp only [List.foldl_cons]
      exact ih _ (keyConsistent_aset (hexEncode e.recordId) (itemOfCreated e) rfl hb)
  clear hd
  induction us generalizing d1 with
  | nil => exact h1
  | cons e rest ih =>
    simp only [List.foldl_cons]
    exact ih _ (keyConsistent_aset (hexEncode e.recordId) (mergeUpdated (alookup (hexEncode e.recordId) d1) e) rfl h1)

theorem resolveRid_error_shape {cfg : Cfg} {req : CreateReq} {e : HErr}
    (h : resolveRid cfg req = .error e) : e = .http 400 "invalid recordId" := by
  simp only [resolveRid] at h
  split at h
  · cases hb : b32 (req.recordIdHex.getD "") <;> rw [hb] at h
    · injection h with h2
      exact h2.symm
    · exact absurd h (by simp)
  · exact absurd h (by simp)

theorem toBytesOfHex_hexEncode {l : List Nat} (h : ∀ b ∈ l, b < 256) :
    toBytesOfHex (hexEncode l) = l := by
  simp [toBytesOfHex, hexEncode, unhex_hexEncodeList h]

theorem toBytesOfHex_zeros64 : toBytesOfHex zeros64 = List.replicate 32 0 := by decide

theorem uriSplit (b d : String) (n : Nat) :
    b ++ "/objects/" ++ d ++ "/" ++ fileNameV n =
      (b ++ "/objects/" ++ d) ++ ("/v" ++ Nat.repr n ++ ".json") := by
  simp only [fileNameV]
  rw [String.append_assoc "/v" (Nat.repr n) ".json"]
  rw [show ("/v" : String) = "/" ++ "v" from rfl]
  simp only [String.append_assoc]

/-- C5 (amended): parsing a hex-encoded 32-byte record id (`_b32`)
succeeds iff the string, after stripping an optional "0x" prefix,
consists only of hex digits and has exactly 64 of them (decodes to
exactly 32 bytes); every failing input is surfaced as HTTP 400 by the
read and update endpoints, and by create whenever the supplied record
id field is non-empty.  The one exception, which refutes the claim as
stated, is the empty string: it is a wrong-length input, but Python
truthiness makes create treat it as absent and derive a fresh id
instead of rejecting. -/
theorem C5_b32_parse (s : String) :
    ((b32 s).isSome ↔
      ((∀ c ∈ (strip0x s).data, (hexVal? c).isSome) ∧ (strip0x s).data.length = 64)) ∧
    (b32 s = none →
      (∀ get : List Nat → ChainRecord,
        get_one get s = .error (.http 400 "invalid recordId")) ∧
      (∀ (cfg : Cfg) (get : List Nat → ChainRecord) (sOk : Bool) (req : UpdateReq),
        (update cfg get sOk s req).resp = .error (.http 400 "invalid recordId")) ∧
      (∀ (cfg : Cfg) (sOk : Bool) (req : CreateReq), req.recordIdHex = some s → s ≠ "" →
        (create cfg sOk req).resp = .error (.http 400 "invalid recordId"))) := by
  constructor
  · constructor
    · intro h
      obtain ⟨rid, hr⟩ := Option.isSome_iff_exists.1 h
      obtain ⟨hu, hl⟩ := b32_spec hr
      obtain ⟨he, hm⟩ := unhex_even_and_hex hu
      have hlen := unhex_length hu
      exact ⟨hm, by omega⟩
    · rintro ⟨hm, hlen⟩
      have he : (strip0x s).data.length % 2 = 0 := by omega
      obtain ⟨raw, hraw⟩ := Option.isSome_iff_exists.1 (unhex_isSome_of he hm)
      have hlen2 := unhex_length hraw
      have h32 : raw.length = 32 := by omega
      simp [b32, hraw, h32]
  · intro hnone
    refine ⟨?_, ?_, ?_⟩
    · intro get
      simp [get_one, hnone]
    · intro cfg get sOk req
      rw [update_badId get sOk hnone]
    · intro cfg sOk req hrh hs
      have ht : truthy (some s) = true := by simp [truthy, hs]
      have hres : resolveRid cfg req = .error (.http 400 "invalid recordId") := by
        simp [resolveRid, hrh, ht, hnone]
      rw [create_err sOk hres]

theorem C5_b32_parse_witness :
    get_one (fun _ => ⟨[], "", 0, zeroAddress, 0, 0, ""⟩) "0xzz" =
      .error (.http 400 "invalid recordId") :=
  (((C5_b32_parse "0xzz").2 (by decide)).1 _)

/-- C5 counterexample: the empty string is a wrong-length record id
(`_b32` rejects it: zero bytes, not 32), yet a create request supplying
it does not fail with 400 — the empty string is falsy, so the handler
treats the id as absent, derives a fresh one and succeeds. -/
theorem C5_counterexample :
    b32 "" = none ∧
    respOk (create cfgEx true ⟨some "", some "a", none⟩).resp = true := by
  decide

/-- C6: for a valid 32-byte record id, the read endpoint returns
NotFound (HTTP 404) exactly when the owner field of the tuple returned
by the contract is the zero address; otherwise it returns the tuple's
contentHash, uri, version, owner, createdAt, updatedAt and updatedBy
unchanged. -/
theorem C6_read_notFound (get : List Nat → ChainRecord) (s : String) (rid : List Nat)
    (hb : b32 s = some rid) :
    (get_one get s = .error (.http 404 "not found") ↔ (get rid).owner = zeroAddress) ∧
    ((get rid).owner ≠ zeroAddress →
      get_one get s = .ok ⟨lowerStr s, toHex0x (get rid).contentHash, (get rid).uri,
        (get rid).version, (get rid).owner, (get rid).createdAt, (get rid).updatedAt,
        (get rid).updatedBy⟩) ∧
    (HErr.http 404 "not found").status = 404 := by
  refine ⟨?_, ?_, rfl⟩
  · by_cases how : (get rid).owner = zeroAddress <;> simp [get_one, hb, how]
  · intro how
    simp [get_one, hb, how]

theorem C6_read_notFound_witness :
    get_one (fun _ => ⟨List.replicate 32 0, "", 0, zeroAddress, 0, 0, zeroAddress⟩)
      ridHexEx = .error (.http 404 "not found") :=
  (C6_read_notFound _ ridHexEx (List.replicate 32 170) (by decide)).1.2 rfl

/-- C9: when no explicit record id is supplied, `create` derives the id
as the Keccak-256 hash (`Web3.keccak`, a fixed 32-byte-output function,
modelled abstractly) of the UTF-8 content bytes when inline content is
given — so identical content derives identical ids — and of the
time-based fallback seed `str(time.time())` when no content is given
either. -/
theorem C9_derived_id (cfg : Cfg) (req : CreateReq) :
    (truthy req.recordIdHex = false → truthy req.json_text = true →
      resolveRid cfg req = .ok (cfg.keccak (strBytes (req.json_text.getD "")))) ∧
    (∀ req' : CreateReq, truthy req.recordIdHex = false → truthy req'.recordIdHex = false →
      truthy req.json_text = true → req'.json_text = req.json_text →
      resolveRid cfg req' = resolveRid cfg req) ∧
    ((∀ x : List Nat, (cfg.keccak x).length = 32) →
      ∀ rid : List Nat, truthy req.recordIdHex = false →
        resolveRid cfg req = .ok rid → rid.length = 32) ∧
    (truthy req.recordIdHex = false → truthy req.json_text = false →
      resolveRid cfg req = .ok (cfg.keccak (strBytes cfg.nowStr))) := by
  refine ⟨?_, ?_, ?_, ?_⟩
  · intro hid hj
    simp [resolveRid, hid, hj]
  · intro req' hid hid' hj hj'
    simp [resolveRid, hid, hid', hj', hj]
  · intro hlen rid hid hres
    simp only [resolveRid, hid, Bool.false_eq_true, if_false] at hres
    injection hres with h2
    rw [← h2]
    exact hlen _
  · intro hid hj
    simp [resolveRid, hid, hj]

theorem C9_derived_id_witness :
    resolveRid cfgEx ⟨none, some "a", none⟩ =
      .ok (cfgEx.keccak (strBytes "a")) :=
  (C9_derived_id cfgEx ⟨none, some "a", none⟩).1 (by decide) (by decide)

/-- C10: for create and for update alike, when both `json_text` and
`uri` are supplied, the inline content wins: the handler's result is
identical to the one for the same request with the `uri` field removed
— the external URI is never read — and the submitted contentHash is
the SHA-256 digest of the content while the returned uri is the
generated object-store locator. -/
theorem C10_precedence :
    (∀ (cfg : Cfg) (sOk : Bool) (rh js u1 u2 : Option String),
      truthy js = true →
      create cfg sOk ⟨rh, js, u1⟩ = create cfg sOk ⟨rh, js, u2⟩) ∧
    (∀ (cfg : Cfg) (req : CreateReq) (rid : List Nat),
      (∀ x : List Nat, ∀ b ∈ cfg.sha256 x, b < 256) →
      resolveRid cfg req = .ok rid → truthy req.json_text = true →
      (create cfg true req).submitted = [⟨true, rid,
        cfg.sha256 (strBytes (req.json_text.getD "")),
        cfg.publicBaseUrl ++ "/objects/" ++ hexEncode rid ++ "/" ++ fileNameV 1⟩] ∧
      (create cfg true req).resp = .ok ⟨toHex0x rid,
        cfg.publicBaseUrl ++ "/objects/" ++ hexEncode rid ++ "/" ++ fileNameV 1⟩) ∧
    (∀ (cfg : Cfg) (get : List Nat → ChainRecord) (s : String) (req : UpdateReq)
        (rid : List Nat),
      (∀ x : List Nat, ∀ b ∈ cfg.sha256 x, b < 256) →
      b32 s = some rid → (get rid).owner ≠ zeroAddress → truthy req.json_text = true →
      (update cfg get true s req).submitted = [⟨false, rid,
        cfg.sha256 (strBytes (req.json_text.getD "")),
        cfg.publicBaseUrl ++ "/objects/" ++ strip0x s ++ "/" ++
          fileNameV ((get rid).version + 1)⟩] ∧
      (update cfg get true s req).resp = .ok ⟨s,
        cfg.publicBaseUrl ++ "/objects/" ++ strip0x s ++ "/" ++
          fileNameV ((get rid).version + 1)⟩) ∧
    (∀ (cfg : Cfg) (get : List Nat → ChainRecord) (sOk : Bool) (s : String)
        (js u1 u2 : Option String),
      truthy js = true →
      update cfg get sOk s ⟨js, u1⟩ = update cfg get sOk s ⟨js, u2⟩) := by
  refine ⟨?_, ?_, ?_, ?_⟩
  · intro cfg sOk rh js u1 u2 hj
    simp [create, resolveRid, hj]
  · intro cfg req rid hsha hres hj
    rw [create_json hres hj]
    refine ⟨?_, rfl⟩
    simp [toBytesOfHex_hexEncode (hsha _)]
  · intro cfg get s req rid hsha hb how hj
    rw [@update_json cfg req s rid get hb how hj]
    refine ⟨?_, rfl⟩
    simp [toBytesOfHex_hexEncode (hsha _)]
  · intro cfg get sOk s js u1 u2 hj
    cases hb : b32 s with
    | none => rw [update_badId get sOk hb, update_badId get sOk hb]
    | some rid =>
      by_cases how : (get rid).owner = zeroAddress
      · rw [update_notFound sOk hb how, update_notFound sOk hb how]
      · simp [update, hb, how, hj]

theorem C10_precedence_witness :
    create cfgEx true ⟨none, some "a", some "http://x"⟩ =
      create cfgEx true ⟨none, some "a", none⟩ :=
  C10_precedence.1 cfgEx true none (some "a") (some "http://x") none (by decide)

/-- C1 counterexample: a create request supplying BOTH inline content
and an external URI does not fail — the handler succeeds, so the claim
"it fails when both are given" is false on the code. -/
theorem C1_counterexample :
    truthy (CreateReq.mk none (some "a") (some "http://x")).json_text = true ∧
    truthy (CreateReq.mk none (some "a") (some "http://x")).uri = true ∧
    respOk (create cfgEx true ⟨none, some "a", some "http://x"⟩).resp = true := by
  decide

/-- C1 (amended): `create`, and `update` on an existing record, fail
with InvalidInput (HTTP 400) when neither `json_text` nor `uri` is
supplied (absent or empty; for update on a missing record the
existence check fires first with 404); when both are supplied the
operation does not fail — the inline content takes precedence. -/
theorem C1_exactly_one_amended :
    (∀ (cfg : Cfg) (sOk : Bool) (req : CreateReq),
      truthy req.json_text = false → truthy req.uri = false →
      ∃ m, (create cfg sOk req).resp = .error (.http 400 m)) ∧
    (∀ (cfg : Cfg) (get : List Nat → ChainRecord) (sOk : Bool) (s : String)
        (req : UpdateReq) (rid : List Nat),
      b32 s = some rid → (get rid).owner ≠ zeroAddress →
      truthy req.json_text = false → truthy req.uri = false →
      (update cfg get sOk s req).resp =
        .error (.http 400 "json_text 또는 uri 중 하나는 필요")) ∧
    (∀ (cfg : Cfg) (req : CreateReq) (rid : List Nat),
      resolveRid cfg req = .ok rid → truthy req.json_text = true →
      respOk (create cfg true req).resp = true) ∧
    (∀ (cfg : Cfg) (get : List Nat → ChainRecord) (s : String) (req : UpdateReq)
        (rid : List Nat),
      b32 s = some rid → (get rid).owner ≠ zeroAddress → truthy req.json_text = true →
      respOk (update cfg get true s req).resp = true) ∧
    (∀ (cfg : Cfg) (get : List Nat → ChainRecord) (sOk : Bool) (s : String)
        (req : UpdateReq) (rid : List Nat),
      b32 s = some rid → (get rid).owner = zeroAddress →
      (update cfg get sOk s req).resp = .error (.http 404 "not found")) := by
  refine ⟨?_, ?_, ?_, ?_, ?_⟩
  · intro cfg sOk req hj hu
    cases hres : resolveRid cfg req with
    | error e =>
      refine ⟨"invalid recordId", ?_⟩
      rw [create_err sOk hres, resolveRid_error_shape hres]
    | ok rid =>
      refine ⟨"json_text 또는 uri 중 하나는 필요", ?_⟩
      rw [create_neither sOk hres hj hu]
  · intro cfg get sOk s req rid hb how hj hu
    rw [@update_neither cfg req s rid get sOk hb how hj hu]
  · intro cfg req rid hres hj
    rw [create_json hres hj]
    rfl
  · intro cfg get s req rid hb how hj
    rw [@update_json cfg req s rid get hb how hj]
    rfl
  · intro cfg get sOk s req rid hb how
    rw [@update_notFound cfg req s rid get sOk hb how]

theorem C1_exactly_one_amended_witness :
    ∃ m, (create cfgEx true ⟨none, none, none⟩).resp = .error (.http 400 m) :=
  C1_exactly_one_amended.1 cfgEx true ⟨none, none, none⟩ (by decide) (by decide)

/-- C2: the contentHash submitted to the ledger is the SHA-256 digest
(`hashlib.sha256`, modelled abstractly; its hex digest is decoded back
to the digest bytes by `Web3.to_bytes`) of the inline content bytes
when `json_text` is supplied, and the all-zero 32-byte sentinel when
only an external URI is supplied — for create and for update alike. -/
theorem C2_contentHash :
    (∀ (cfg : Cfg) (req : CreateReq) (rid : List Nat),
      (∀ x : List Nat, ∀ b ∈ cfg.sha256 x, b < 256) →
      resolveRid cfg req = .ok rid → truthy req.json_text = true →
      ∃ u, (create cfg true req).submitted =
        [⟨true, rid, cfg.sha256 (strBytes (req.json_text.getD "")), u⟩]) ∧
    (∀ (cfg : Cfg) (req : CreateReq) (rid : List Nat) (sOk : Bool),
      resolveRid cfg req = .ok rid → truthy req.json_text = false →
      truthy req.uri = true →
      ∃ u, (create cfg sOk req).submitted = [⟨true, rid, List.replicate 32 0, u⟩]) ∧
    (∀ (cfg : Cfg) (get : List Nat → ChainRecord) (s : String) (req : UpdateReq)
        (rid : List Nat),
      (∀ x : List Nat, ∀ b ∈ cfg.sha256 x, b < 256) →
      b32 s = some rid → (get rid).owner ≠ zeroAddress → truthy req.json_text = true →
      ∃ u, (update cfg get true s req).submitted =
        [⟨false, rid, cfg.sha256 (strBytes (req.json_text.getD "")), u⟩]) ∧
    (∀ (cfg : Cfg) (get : List Nat → ChainRecord) (s : String) (req : UpdateReq)
        (rid : List Nat) (sOk : Bool),
      b32 s = some rid → (get rid).owner ≠ zeroAddress → truthy req.json_text = false →
      truthy req.uri = true →
      ∃ u, (update cfg get sOk s req).submitted =
        [⟨false, rid, List.replicate 32 0, u⟩]) := by
  refine ⟨?_, ?_, ?_, ?_⟩
  · intro cfg req rid hsha hres hj
    rw [create_json hres hj]
    exact ⟨cfg.publicBaseUrl ++ "/objects/" ++ hexEncode rid ++ "/" ++ fileNameV 1,
      by simp [toBytesOfHex_hexEncode (hsha _)]⟩
  · intro cfg req rid sOk hres hj hu
    rw [create_uriOnly sOk hres hj hu]
    exact ⟨req.uri.getD "", by simp [toBytesOfHex_zeros64]⟩
  · intro cfg get s req rid hsha hb how hj
    rw [@update_json cfg req s rid get hb how hj]
    exact ⟨cfg.publicBaseUrl ++ "/objects/" ++ strip0x s ++ "/" ++
      fileNameV ((get rid).version + 1), by simp [toBytesOfHex_hexEncode (hsha _)]⟩
  · intro cfg get s req rid sOk hb how hj hu
    rw [@update_uriOnly cfg req s rid get sOk hb how hj hu]
    exact ⟨req.uri.getD "", by simp [toBytesOfHex_zeros64]⟩

theorem C2_contentHash_witness :
    ∃ u, (create cfgEx true ⟨some ridHexEx, some "a", none⟩).submitted =
      [⟨true, List.replicate 32 170, cfgEx.sha256 (strBytes "a"), u⟩] :=
  C2_contentHash.1 cfgEx ⟨some ridHexEx, some "a", none⟩ (List.replicate 32 170)
    (fun x b hb => by simp [cfgEx] at hb; omega) (by decide) (by decide)

/-- C4: for create and update with inline content, the object-store
write precedes transaction building and submission: when the write
fails, the handler aborts with an uncaught I/O error (HTTP 500), no
transaction is submitted and nothing is written; when the write
succeeds, both the write and the submission happen. -/
theorem C4_precommit_write :
    (∀ (cfg : Cfg) (req : CreateReq) (rid : List Nat),
      resolveRid cfg req = .ok rid → truthy req.json_text = true →
      (create cfg false req).submitted = [] ∧
      (create cfg false req).writes = [] ∧
      (create cfg false req).resp = .error (.exn "object store write failed") ∧
      HErr.status (.exn "object store write failed") = 500 ∧
      (create cfg true req).writes ≠ [] ∧
      (create cfg true req).submitted ≠ []) ∧
    (∀ (cfg : Cfg) (get : List Nat → ChainRecord) (s : String) (req : UpdateReq)
        (rid : List Nat),
      b32 s = some rid → (get rid).owner ≠ zeroAddress → truthy req.json_text = true →
      (update cfg get false s req).submitted = [] ∧
      (update cfg get false s req).writes = [] ∧
      (update cfg get false s req).resp = .error (.exn "object store write failed") ∧
      (update cfg get true s req).writes ≠ [] ∧
      (update cfg get true s req).submitted ≠ []) := by
  constructor
  · intro cfg req rid hres hj
    rw [create_json_storageFail hres hj, create_json hres hj]
    exact ⟨rfl, rfl, rfl, rfl, by simp, by simp⟩
  · intro cfg get s req rid hb how hj
    rw [@update_json_storageFail cfg req s rid get hb how hj,
      @update_json cfg req s rid get hb how hj]
    exact ⟨rfl, rfl, rfl, by simp, by simp⟩

theorem C4_precommit_write_witness :
    (create cfgEx false ⟨some ridHexEx, some "a", none⟩).submitted = [] :=
  (C4_precommit_write.1 cfgEx ⟨some ridHexEx, some "a", none⟩ (List.replicate 32 170)
    (by decide) (by decide)).1

/-- C7: update with inline content on a record whose current on-chain
version is v writes the payload to object-store path
recordIdHex/v(v+1).json and returns a newUri ending in "/v(v+1).json";
create with inline content writes recordIdHex/v1.json and the returned
uri ends in "/v1.json". -/
theorem C7_version_paths :
    (∀ (cfg : Cfg) (get : List Nat → ChainRecord) (s : String) (req : UpdateReq)
        (rid : List Nat),
      b32 s = some rid → (get rid).owner ≠ zeroAddress → truthy req.json_text = true →
      (update cfg get true s req).writes =
        [⟨strip0x s, fileNameV ((get rid).version + 1), req.json_text.getD ""⟩] ∧
      ∃ p, (update cfg get true s req).resp =
        .ok ⟨s, p ++ ("/v" ++ Nat.repr ((get rid).version + 1) ++ ".json")⟩) ∧
    (∀ (cfg : Cfg) (req : CreateReq) (rid : List Nat),
      resolveRid cfg req = .ok rid → truthy req.json_text = true →
      (create cfg true req).writes =
        [⟨hexEncode rid, fileNameV 1, req.json_text.getD ""⟩] ∧
      ∃ p, (create cfg true req).resp =
        .ok ⟨toHex0x rid, p ++ ("/v" ++ Nat.repr 1 ++ ".json")⟩) := by
  constructor
  · intro cfg get s req rid hb how hj
    rw [@update_json cfg req s rid get hb how hj]
    refine ⟨rfl, cfg.publicBaseUrl ++ "/objects/" ++ strip0x s, ?_⟩
    show Except.ok (UpdateResp.mk s (cfg.publicBaseUrl ++ "/objects/" ++ strip0x s ++ "/" ++
      fileNameV ((get rid).version + 1))) = _
    rw [uriSplit]
  · intro cfg req rid hres hj
    rw [create_json hres hj]
    refine ⟨rfl, cfg.publicBaseUrl ++ "/objects/" ++ hexEncode rid, ?_⟩
    show Except.ok (CreateResp.mk (toHex0x rid) (cfg.publicBaseUrl ++ "/objects/" ++
      hexEncode rid ++ "/" ++ fileNameV 1)) = _
    rw [uriSplit]

theorem C7_version_paths_witness :
    (create cfgEx true ⟨some ridHexEx, some "a", none⟩).writes =
      [⟨hexEncode (List.replicate 32 170), fileNameV 1, "a"⟩] :=
  (C7_version_paths.2 cfgEx ⟨some ridHexEx, some "a", none⟩ (List.replicate 32 170)
    (by decide) (by decide)).1

/-- C3 counterexample: two create requests for the same explicit record
id both write object-store path (recordIdHex, "v1.json") — the write
happens before the duplicate-id submission reverts — so the service
does write the same (recordId, version) path twice. -/
theorem C3_counterexample :
    ¬ (((run cfgEx "0xAcct" []
        [.create ⟨some ridHexEx, some "a", none⟩,
         .create ⟨some ridHexEx, some "b", none⟩]).writes.map WriteOp.path).Nodup) := by
  decide

/-- C3 (amended): in any run of service operations in which no
submission is rejected by the contract — in particular, no create
targets an already-existing record id — the object-store write paths
are pairwise distinct: updates always write at the record's current
version + 1, which the successful submission then advances.  A create
whose record id already exists rewrites (recordIdHex, "v1.json") before
the ledger rejects it, which is the excluded case.  The signing account
is a real (nonzero) address and `Web3.keccak` returns bytes (library
guarantees, taken as hypotheses). -/
theorem C3_no_rewrite_amended (cfg : Cfg) (account : String) (ops : List Op)
    (hacct : account ≠ zeroAddress)
    (hkec : ∀ s : List Nat, ∀ b ∈ cfg.keccak s, b < 256)
    (hrev : (run cfg account [] ops).reverted = false) :
    ((run cfg account [] ops).writes.map WriteOp.path).Nodup := by
  have h0 : WInv [] [] := ⟨List.nodup_nil, by simp⟩
  have h := WInv_run hacct hkec ops [] [] h0 hrev
  have h1 := h.1
  simpa using h1

theorem C3_no_rewrite_amended_witness :
    (((run cfgEx "0xAcct" []
      [.create ⟨some ridHexEx, some "a", none⟩]).writes.map WriteOp.path).Nodup) :=
  C3_no_rewrite_amended cfgEx "0xAcct" [.create ⟨some ridHexEx, some "a", none⟩]
    (by decide) (fun s b hb => by simp [cfgEx] at hb; omega) (by decide)

/-- C8: listing replays the creation and update event logs into a dict
keyed by record id and returns its values sorted by `updatedAt`
descending: there is exactly one item per distinct record id occurring
in the events; each item equals the projection of the last update event
for its id (fields merged over the creation entry, which uniquely
exists per id by the contract's one-create-per-id guarantee, taken as
the Nodup hypothesis), or of the creation event alone if the id was
never updated; and the output is in non-increasing `updatedAt` order.
The embedding is a pure function of the two event sequences, so
repeated calls over the same events return the same order. -/
theorem C8_listing (cs : List CreatedEv) (us : List UpdatedEv)
    (hcd : (cs.map fun e => hexEncode e.recordId).Nodup) :
    ((list_metadata cs us).map Item.recordId).Nodup ∧
    (∀ k : String, (∃ it ∈ list_metadata cs us, it.recordId = k) ↔
      ((∃ e ∈ cs, hexEncode e.recordId = k) ∨ (∃ e ∈ us, hexEncode e.recordId = k))) ∧
    (∀ it ∈ list_metadata cs us, specItem cs us it.recordId = some it) ∧
    (list_metadata cs us).Pairwise (fun a b => b.updatedAt ≤ a.updatedAt) := by
  have hperm : List.Perm (list_metadata cs us) ((buildItems cs us).map Prod.snd) :=
    List.mergeSort_perm _ _
  have hkc : keyConsistent (buildItems cs us) := keyConsistent_buildItems cs us
  have hknd : (akeys (buildItems cs us)).Nodup := by
    unfold buildItems
    exact nodup_akeys_foldU _ _ (nodup_akeys_foldC _ _ (by simp [akeys]))
  have hvalmap : ((buildItems cs us).map Prod.snd).map Item.recordId =
      akeys (buildItems cs us) := by
    rw [List.map_map]
    exact List.map_congr_left (fun p hp => hkc p hp)
  have hmemk : ∀ k : String, k ∈ akeys (buildItems cs us) ↔
      ((∃ e ∈ cs, hexEncode e.recordId = k) ∨ (∃ e ∈ us, hexEncode e.recordId = k)) := by
    intro k
    unfold buildItems
    rw [mem_akeys_foldU, mem_akeys_foldC]
    simp only [akeys, List.map_nil, List.not_mem_nil, or_false]
    exact or_comm
  refine ⟨?_, ?_, ?_, ?_⟩
  · rw [(hperm.map Item.recordId).nodup_iff]
    rw [hvalmap]
    exact hknd
  · intro k
    constructor
    · rintro ⟨it, hit, rfl⟩
      have hv : it ∈ (buildItems cs us).map Prod.snd := (hperm.mem_iff).1 hit
      obtain ⟨p, hp, hpe⟩ := List.mem_map.1 hv
      rw [← hpe, hkc p hp]
      exact (hmemk p.1).1 (List.mem_map_of_mem Prod.fst hp)
    · intro hev
      obtain ⟨p, hp, hpk⟩ := List.mem_map.1 ((hmemk k).2 hev)
      refine ⟨p.2, (hperm.mem_iff).2 (List.mem_map_of_mem Prod.snd hp), ?_⟩
      rw [hkc p hp, hpk]
  · intro it hit
    have hv : it ∈ (buildItems cs us).map Prod.snd := (hperm.mem_iff).1 hit
    obtain ⟨p, hp, hpe⟩ := List.mem_map.1 hv
    have hpair : (p.1, it) ∈ buildItems cs us := by
      rw [← hpe]
      exact hp
    have hlk : alookup p.1 (buildItems cs us) = some it :=
      alookup_eq_some_of_mem hknd hpair
    have hkey : it.recordId = p.1 := by
      rw [← hpe]
      exact hkc p hp
    rw [hkey, ← alookup_buildItems]
    exact hlk
  · have htrans : ∀ a b c : Item,
        (decide (b.updatedAt ≤ a.updatedAt)) = true →
        (decide (c.updatedAt ≤ b.updatedAt)) = true →
        (decide (c.updatedAt ≤ a.updatedAt)) = true := by
      intro a b c h1 h2
      simp only [decide_eq_true_eq] at h1 h2 ⊢
      omega
    have htotal : ∀ a b : Item,
        ((decide (b.updatedAt ≤ a.updatedAt)) || (decide (a.updatedAt ≤ b.updatedAt))) = true := by
      intro a b
      simp only [Bool.or_eq_true, decide_eq_true_eq]
      omega
    have hs := List.sorted_mergeSort htrans htotal ((buildItems cs us).map Prod.snd)
    exact hs.imp (fun h => by simpa using h)

theorem C8_listing_witness :
    ((list_metadata [cEx] [uEx]).map Item.recordId).Nodup :=
  (C8_listing [cEx] [uEx] (by decide)).1

end MetaTracer
